import Mathlib

/-!
Verification of the github-contributor extraction pipeline.

This file shallowly embeds the core logic of the repository's three source
modules:

* `simple_extractor.py` (`SimpleGitHubExtractor`): pacing-based rate limiting
  (`respect_rate_limit`), the retrying request loop (`make_request`), the
  contributor normalization (`get_top_contributors`), the per-repository
  profile join (`extract_contributors_data`), and the catalog-driving
  pipelines (`run_extraction`, `run_blockchain_extraction_with_top_repos`).
* `blockchain_contributors_extractor.py` (`GitHubContributorExtractor`):
  budget-based rate limiting (`check_rate_limit`), its own `make_request`
  (which treats HTTP 403 as an immediate failure), contributor normalization
  (`get_repo_contributors`), social-link extraction (`extract_social_links`),
  the per-repository join (`process_repository`), and the catalog pipeline
  with final de-duplication (`extract_all_contributors`).
* `filter_repos.py`: the catalog-filtering script (`final_repos`).

Network transport is modelled by a function `responses : Nat → HttpOutcome`
giving the outcome of the i-th send of one logical request, and a clock
`clock : Nat → Int` giving the epoch time observed at the i-th send.  Sleeps
are recorded as explicit values in a trace rather than performed.  JSON
payloads are modelled by the `Payload` type (a list of contributor entries,
or any non-list value).  Python dictionaries with optional keys become
structures with `Option` fields read through `Option.getD`.
-/

/-- Models Python's `needle in hay` on strings, at the character-list level:
`charListStartsWith n h` is true when `n` is an initial segment of `h`. -/
def charListStartsWith : List Char → List Char → Bool
  | [], _ => true
  | _ :: _, [] => false
  | n :: ns, h :: hs => n == h && charListStartsWith ns hs

/-- True when `needle` occurs as a contiguous run inside `hay`. -/
def containsSub (needle : List Char) : List Char → Bool
  | [] => charListStartsWith needle []
  | c :: hs => charListStartsWith needle (c :: hs) || containsSub needle hs

/-- Python's substring test `needle in hay` for strings. -/
def strContains (needle hay : String) : Bool :=
  containsSub needle.data hay.data

/-- One entry of a contributor-list JSON payload: the fields the extractors
read (`login`, `contributions`, and the optional `type` key). -/
structure CEntry where
  login : String
  contributions : Nat
  typ : Option String
deriving DecidableEq, Repr

/-- A JSON payload as the extractors see it: either a list of contributor
entries or some non-list JSON value (the truthiness flag models Python's
`not data` on that value). -/
inductive Payload where
  | plist (entries : List CEntry)
  | pobj (truthy : Bool)
deriving DecidableEq, Repr

/-- The outcome of one HTTP send: a status response (with the optional
`X-RateLimit-Reset` header and a body), or one of the exception kinds the
source catches (`SSLError`, `ConnectionError`, `Timeout`, `RequestException`,
or any other exception). -/
inductive HttpOutcome where
  | status (code : Nat) (resetHeader : Option Int) (body : Payload)
  | sslError
  | connError
  | timeoutError
  | requestError
  | otherError
deriving DecidableEq, Repr

/-- The observable behaviour of one `make_request` call: the returned JSON
payload (`none` models Python's `None`), how many sends were performed, and
the sleep durations executed, in order. -/
structure RequestTrace where
  payload : Option Payload
  attempts : Nat
  sleeps : List Int
deriving DecidableEq, Repr

namespace SimpleGitHubExtractor

/-- Models `SimpleGitHubExtractor.min_delay` (2.0 seconds). -/
def min_delay : ℚ := 2

/-- Models `SimpleGitHubExtractor.respect_rate_limit`: given the stored
`last_request_time` and the current clock reading, returns the sleep duration
performed and the new `last_request_time` (the clock reading after the sleep,
with the idealized assumption that `time.sleep(d)` advances the clock by
exactly `d`). -/
def respect_rate_limit (last_request_time current_time : ℚ) : ℚ × ℚ :=
  let time_since_last_request := current_time - last_request_time
  if time_since_last_request < min_delay then
    let sleep_time := min_delay - time_since_last_request
    (sleep_time, current_time + sleep_time)
  else
    (0, current_time)

/-- The retry loop body of `SimpleGitHubExtractor.make_request`
(simple_extractor.py lines 54-100), by recursion on the remaining loop
iterations (`fuel`); `attempt` is the current index of Python's
`for attempt in range(max_retries)`.  On HTTP 403 it sleeps
`max(60, reset - now)` and `continue`s (consuming the iteration); on 404 it
returns `None`; on any other non-200 status or any caught exception it sleeps
`2 ** attempt` and retries while `attempt < max_retries - 1`, else returns
`None`; on 200 it returns the body. -/
def requestGo (responses : Nat → HttpOutcome) (clock : Nat → Int)
    (max_retries : Nat) : Nat → Nat → RequestTrace
  | 0, _ => ⟨none, 0, []⟩
  | fuel + 1, attempt =>
    match responses attempt with
    | .status code resetHeader body =>
      if code == 403 then
        let reset_time := resetHeader.getD (clock attempt + 60)
        let wait_time := max 60 (reset_time - clock attempt)
        let t := requestGo responses clock max_retries fuel (attempt + 1)
        ⟨t.payload, t.attempts + 1, wait_time :: t.sleeps⟩
      else if code == 404 then
        ⟨none, 1, []⟩
      else if code != 200 then
        if attempt < max_retries - 1 then
          let t := requestGo responses clock max_retries fuel (attempt + 1)
          ⟨t.payload, t.attempts + 1, ((2 : Int) ^ attempt) :: t.sleeps⟩
        else
          ⟨none, 1, []⟩
      else
        ⟨some body, 1, []⟩
    | _ =>
      if attempt < max_retries - 1 then
        let t := requestGo responses clock max_retries fuel (attempt + 1)
        ⟨t.payload, t.attempts + 1, ((2 : Int) ^ attempt) :: t.sleeps⟩
      else
        ⟨none, 1, []⟩

/-- Models `SimpleGitHubExtractor.make_request(url, max_retries)`: runs the
retry loop for `max_retries` iterations starting at attempt 0. -/
def make_request (responses : Nat → HttpOutcome) (clock : Nat → Int)
    (max_retries : Nat) : RequestTrace :=
  requestGo responses clock max_retries max_retries 0

/-- Models the payload-normalization part of
`SimpleGitHubExtractor.get_top_contributors` (simple_extractor.py lines
178-191), applied to the payload returned by `make_request`: `None`, an
empty list, or a non-list payload yields `[]`; otherwise keep entries whose
`type` is `"User"` and truncate to `max_contributors`. -/
def get_top_contributors (data : Option Payload) (max_contributors : Nat) :
    List CEntry :=
  match data with
  | none => []
  | some (.pobj _) => []
  | some (.plist entries) =>
    if entries.isEmpty then []
    else (entries.filter (fun c => c.typ == some "User")).take max_contributors

end SimpleGitHubExtractor

namespace GitHubContributorExtractor

/-- Models the sleeping part of `GitHubContributorExtractor.check_rate_limit`
(blockchain_contributors_extractor.py lines 172-178): the list of sleeps
performed before the call is admitted, given the tracked
`rate_limit_remaining`, `rate_limit_reset`, and the current time. -/
def check_rate_limit_sleeps (rate_limit_remaining rate_limit_reset now : Int) :
    List Int :=
  if rate_limit_remaining ≤ 1 then
    let wait_time := max 0 (rate_limit_reset - now)
    if wait_time > 0 then [wait_time] else []
  else
    []

/-- The retry loop body of `GitHubContributorExtractor.make_request`
(blockchain_contributors_extractor.py lines 195-263).  It differs from the
simple extractor's loop only on HTTP 403, which returns `None` immediately
(no sleep, no retry); 404 returns `None`; other non-200 statuses and all
caught exception kinds sleep `2 ** attempt` and retry while
`attempt < max_retries - 1`. -/
def requestGo (responses : Nat → HttpOutcome) (clock : Nat → Int)
    (max_retries : Nat) : Nat → Nat → RequestTrace
  | 0, _ => ⟨none, 0, []⟩
  | fuel + 1, attempt =>
    match responses attempt with
    | .status code _ body =>
      if code == 403 then
        ⟨none, 1, []⟩
      else if code == 404 then
        ⟨none, 1, []⟩
      else if code != 200 then
        if attempt < max_retries - 1 then
          let t := requestGo responses clock max_retries fuel (attempt + 1)
          ⟨t.payload, t.attempts + 1, ((2 : Int) ^ attempt) :: t.sleeps⟩
        else
          ⟨none, 1, []⟩
      else
        ⟨some body, 1, []⟩
    | _ =>
      if attempt < max_retries - 1 then
        let t := requestGo responses clock max_retries fuel (attempt + 1)
        ⟨t.payload, t.attempts + 1, ((2 : Int) ^ attempt) :: t.sleeps⟩
      else
        ⟨none, 1, []⟩

/-- Models `GitHubContributorExtractor.make_request(url, max_retries)`. -/
def make_request (responses : Nat → HttpOutcome) (clock : Nat → Int)
    (max_retries : Nat) : RequestTrace :=
  requestGo responses clock max_retries max_retries 0

/-- Models the payload-normalization part of
`GitHubContributorExtractor.get_repo_contributors`
(blockchain_contributors_extractor.py lines 273-290), applied to the payload
returned by `make_request`: falsy or non-list data yields `[]`; a list is
filtered to entries of `type` `"User"` and truncated to 10. -/
def get_repo_contributors (data : Option Payload) : List CEntry :=
  match data with
  | none => []
  | some (.pobj _) => []
  | some (.plist entries) =>
    if entries.isEmpty then []
    else (entries.filter (fun c => c.typ == some "User")).take 10

end GitHubContributorExtractor

/-- A fault outcome the spec classifies as `Transient`: a status other than
200/403/404, or any transport-level exception. -/
def isTransient : HttpOutcome → Bool
  | .status code _ _ => code != 200 && code != 403 && code != 404
  | _ => true

/-- An HTTP 403 (rate-limited) response. -/
def isRateLimited : HttpOutcome → Bool
  | .status code _ _ => code == 403
  | _ => false

/-- The dictionary of user-profile fields the extractors read; each key may
be absent, modelling Python's `user_data.get(key, '')`. -/
structure UserData where
  login : String
  name : Option String
  email : Option String
  html_url : Option String
  twitter_username : Option String
  blog : Option String
  location : Option String
  company : Option String
  bio : Option String
  followers : Nat
  following : Nat
  public_repos : Nat
  created_at : Option String
  updated_at : Option String
deriving DecidableEq, Repr

/-- The dictionary built by
`GitHubContributorExtractor.extract_social_links`. -/
structure SocialLinks where
  twitter : String
  linkedin : String
  website : String
  blog : String
  location : String
  company : String
  bio : String
deriving DecidableEq, Repr

namespace GitHubContributorExtractor

/-- Models `GitHubContributorExtractor.extract_social_links`
(blockchain_contributors_extractor.py lines 297-318): all fields default to
the empty string; when user data is present, the single free-text `blog`
field is classified as `linkedin` if it contains the substring
`"linkedin.com"` and as `website` otherwise, and is also retained verbatim
as `blog`. -/
def extract_social_links (user_data : Option UserData) : SocialLinks :=
  match user_data with
  | none => ⟨"", "", "", "", "", "", ""⟩
  | some u =>
    ⟨u.twitter_username.getD "",
     if strContains "linkedin.com" (u.blog.getD "") then u.blog.getD "" else "",
     if strContains "linkedin.com" (u.blog.getD "") then "" else u.blog.getD "",
     u.blog.getD "",
     u.location.getD "",
     u.company.getD "",
     u.bio.getD ""⟩

end GitHubContributorExtractor

/-- The entry list carried by a payload (empty for `None` or a non-list
value); used to state order preservation of the contributor fetchers. -/
def payloadEntries : Option Payload → List CEntry
  | some (.plist entries) => entries
  | _ => []

/-- One catalog entry: the `{'owner': …, 'repo': …, 'name': …}` dictionaries
of the static catalogs in both extractors and in filter_repos.py. -/
structure RepoEntry where
  owner : String
  repo : String
  name : String
deriving DecidableEq, Repr

/-- The flattened contributor dictionary built by
`GitHubContributorExtractor.process_repository` (and, minus the
linkedin/website/blog/bio split, by
`SimpleGitHubExtractor.extract_contributors_data`). -/
structure ContributorRecord where
  project_name : String
  project_url : String
  contributor_username : String
  contributor_url : String
  contributor_name : String
  contributor_email : String
  contributions : Nat
  twitter : String
  linkedin : String
  website : String
  blog : String
  location : String
  company : String
  bio : String
  followers : Nat
  following : Nat
  public_repos : Nat
  account_created : String
  last_updated : String
deriving DecidableEq, Repr

namespace GitHubContributorExtractor

/-- The `contributor_info` dictionary literal of
`GitHubContributorExtractor.process_repository`
(blockchain_contributors_extractor.py lines 347-367). -/
def build_contributor_info (e : RepoEntry) (contributor : CEntry)
    (user_details : UserData) : ContributorRecord :=
  let social_links := extract_social_links (some user_details)
  ⟨e.name,
   "https://github.com/" ++ e.owner ++ "/" ++ e.repo,
   contributor.login,
   user_details.html_url.getD "",
   user_details.name.getD "",
   user_details.email.getD "",
   contributor.contributions,
   social_links.twitter,
   social_links.linkedin,
   social_links.website,
   social_links.blog,
   social_links.location,
   social_links.company,
   social_links.bio,
   user_details.followers,
   user_details.following,
   user_details.public_repos,
   user_details.created_at.getD "",
   user_details.updated_at.getD ""⟩

/-- The profile-fetch loop of `GitHubContributorExtractor.process_repository`
(lines 338-377): for each contributor stub, fetch the profile; a found
profile is joined into a record, a missing profile is skipped with one
"could not fetch details" warning (counted here as the second component). -/
def profileLoop (get_user_details : String → Option UserData) (e : RepoEntry) :
    List CEntry → List ContributorRecord × Nat
  | [] => ([], 0)
  | contributor :: rest =>
    match get_user_details contributor.login with
    | some user_details =>
      let t := profileLoop get_user_details e rest
      (build_contributor_info e contributor user_details :: t.1, t.2)
    | none =>
      let t := profileLoop get_user_details e rest
      (t.1, t.2 + 1)

/-- Models `GitHubContributorExtractor.process_repository`
(blockchain_contributors_extractor.py lines 320-380): normalize the
contributor payload, then join each stub with its fetched profile, counting
skipped (not-found) profiles. -/
def process_repository (contribData : Option Payload)
    (get_user_details : String → Option UserData) (e : RepoEntry) :
    List ContributorRecord × Nat :=
  profileLoop get_user_details e (get_repo_contributors contribData)

/-- The final de-duplication pass of
`GitHubContributorExtractor.extract_all_contributors` (lines 467-474):
first-seen wins on the `(contributor_username, project_name)` key; `seen` is
the set of keys already taken. -/
def removeDuplicates (seen : List (String × String)) :
    List ContributorRecord → List ContributorRecord
  | [] => []
  | contributor :: rest =>
    let key := (contributor.contributor_username, contributor.project_name)
    if key ∈ seen then removeDuplicates seen rest
    else contributor :: removeDuplicates (key :: seen) rest

end GitHubContributorExtractor

namespace SimpleGitHubExtractor

/-- The per-repository de-duplication loop shared by
`SimpleGitHubExtractor.run_extraction` (simple_extractor.py lines 309-319)
and `run_blockchain_extraction_with_top_repos` (lines 390-399): keep only
contributors whose username is not yet in `seen_usernames`, first-seen wins;
returns the grown seen-set and the new contributors in order. -/
def addNewContributors (seen_usernames : List String) :
    List ContributorRecord → List String × List ContributorRecord
  | [] => (seen_usernames, [])
  | contributor :: rest =>
    if contributor.contributor_username ∈ seen_usernames then
      addNewContributors seen_usernames rest
    else
      let t := addNewContributors (contributor.contributor_username :: seen_usernames) rest
      (t.1, contributor :: t.2)

/-- The catalog loop of `SimpleGitHubExtractor.run_extraction`
(simple_extractor.py lines 301-333), with the per-entry extraction (network
behaviour included) abstracted as `extract`; the result is the
`all_contributors` list. -/
def run_extraction {α : Type} (extract : α → List ContributorRecord) :
    List α → List String → List ContributorRecord
  | [], _ => []
  | repo_info :: rest, seen_usernames =>
    let t := addNewContributors seen_usernames (extract repo_info)
    t.2 ++ run_extraction extract rest t.1

end SimpleGitHubExtractor

/-- A "bob" record as produced for one project, for the C2 scenario. -/
def mkBobRecord (project : String) : ContributorRecord :=
  ⟨project, "https://github.com/acme/widget", "bob", "", "", "", 5,
   "", "", "", "", "", "", "", 0, 0, 0, "", ""⟩

/-- The concrete profile endpoint of the C8 scenario: it knows `"alice"` and
404s (returns no profile) for everyone else. -/
def aliceOnlyProfile : String → Option UserData := fun login =>
  if login == "alice" then
    some ⟨"alice", some "Alice", none, none, none, some "https://alice.dev",
      none, none, none, 1, 2, 3, none, none⟩
  else none

namespace GitHubContributorExtractor

/-- The catalog loop of `GitHubContributorExtractor.extract_all_contributors`
(blockchain_contributors_extractor.py lines 442-463): the per-entry
processing (whose network behaviour, or a raised exception, is abstracted as
`process`) runs inside a try/except; a success extends `all_contributors`
and bumps `successful_repos`, a raised exception bumps `failed_repos` and
the loop continues.  Returns (all_contributors, successful, failed). -/
def extractLoop (process : RepoEntry → Except String (List ContributorRecord)) :
    List RepoEntry → List ContributorRecord × Nat × Nat
  | [] => ([], 0, 0)
  | repo_info :: rest =>
    let t := extractLoop process rest
    match process repo_info with
    | .ok recs => (recs ++ t.1, t.2.1 + 1, t.2.2)
    | .error _ => (t.1, t.2.1, t.2.2 + 1)

/-- The summary emitted at the end of `extract_all_contributors`
(lines 476-492): the de-duplicated result plus the final counts. -/
structure ExtractionSummary where
  unique_contributors : List ContributorRecord
  total_found : Nat
  successful_repos : Nat
  failed_repos : Nat
deriving DecidableEq, Repr

/-- Models `GitHubContributorExtractor.extract_all_contributors`: run the
catalog loop, de-duplicate on `(username, project)`, and emit the summary. -/
def extract_all_contributors
    (process : RepoEntry → Except String (List ContributorRecord))
    (catalog : List RepoEntry) : ExtractionSummary :=
  let t := extractLoop process catalog
  ⟨removeDuplicates [] t.1, t.1.length, t.2.1, t.2.2⟩

end GitHubContributorExtractor

namespace SimpleGitHubExtractor

/-- The inner repository loop of
`SimpleGitHubExtractor.run_blockchain_extraction_with_top_repos`
(simple_extractor.py lines 376-401): per-repository extraction (abstracted
as `extract`, which models `extract_contributors_data` plus the blockchain
metadata stamping); a raised exception aborts the remaining repositories of
this organization (keeping the contributors already added) and marks the
entry failed. -/
def processOrgRepos {β : Type}
    (extract : β → Except String (List ContributorRecord)) :
    List String → List ContributorRecord → List β →
    List String × List ContributorRecord × Bool
  | seen, acc, [] => (seen, acc, true)
  | seen, acc, r :: rs =>
    match extract r with
    | .error _ => (seen, acc, false)
    | .ok recs =>
      let t := addNewContributors seen recs
      processOrgRepos extract t.1 (acc ++ t.2) rs

/-- The organization loop of `run_blockchain_extraction_with_top_repos`
(lines 358-417): fetch the organization's top repositories (abstracted as
`topRepos`); an exception or an empty repository list marks the entry failed
and the loop continues; otherwise the inner repository loop runs and the
entry is counted successful or failed according to whether it completed.
Returns (all_contributors, successful_orgs, failed_orgs). -/
def run_blockchain_loop {α β : Type} (topRepos : α → Except String (List β))
    (extract : β → Except String (List ContributorRecord)) :
    List α → List String → List ContributorRecord →
    List ContributorRecord × Nat × Nat
  | [], _, acc => (acc, 0, 0)
  | org :: rest, seen, acc =>
    match topRepos org with
    | .error _ =>
      let t := run_blockchain_loop topRepos extract rest seen acc
      (t.1, t.2.1, t.2.2 + 1)
    | .ok [] =>
      let t := run_blockchain_loop topRepos extract rest seen acc
      (t.1, t.2.1, t.2.2 + 1)
    | .ok (r :: rs) =>
      let p := processOrgRepos extract seen acc (r :: rs)
      let t := run_blockchain_loop topRepos extract rest p.1 p.2.1
      if p.2.2 then (t.1, t.2.1 + 1, t.2.2) else (t.1, t.2.1, t.2.2 + 1)

/-- Models `SimpleGitHubExtractor.run_blockchain_extraction_with_top_repos`,
starting with an empty seen-set and no accumulated contributors. -/
def run_blockchain_extraction_with_top_repos {α β : Type}
    (topRepos : α → Except String (List β))
    (extract : β → Except String (List ContributorRecord)) (catalog : List α) :
    List ContributorRecord × Nat × Nat :=
  run_blockchain_loop topRepos extract catalog [] []

end SimpleGitHubExtractor

namespace FilterRepos

/-- The `non_evm_chains` set of filter_repos.py (lines 136-139). -/
def non_evm_chains : List String :=
  ["bitcoin", "solana", "cardano", "polkadot", "near", "cosmos", "algorand",
   "ripple", "stellar", "tezos", "filecoin", "chainalysis", "hyperledger"]

/-- Python's `owner.lower()`, modelled per character (the catalog's owner
names are ASCII). -/
def lowerData (s : String) : List Char :=
  s.data.map Char.toLower

/-- The skip test of filter_repos.py line 149:
`any(non_evm in owner.lower() for non_evm in non_evm_chains)`. -/
def isNonEvm (owner : String) : Bool :=
  non_evm_chains.any (fun non_evm => containsSub non_evm.data (lowerData owner))

/-- One owner's slot in the `filtered_repos` / `owner_counts` dictionaries of
filter_repos.py: its key, its `owner_counts[owner]` value, and its
`filtered_repos[owner]` list. -/
structure OwnerGroup where
  owner : String
  count : Nat
  repos : List RepoEntry
deriving DecidableEq, Repr

/-- The slot update of filter_repos.py lines 160-164, applied to one slot:
when the slot belongs to the incoming repository's owner, its count is below
3, and the repository name is not yet present, append the repository and
bump the count; otherwise leave the slot unchanged. -/
def updateGroup (r : RepoEntry) (g : OwnerGroup) : OwnerGroup :=
  if g.owner == r.owner then
    if g.count < 3 then
      if g.repos.any (fun x => x.repo == r.repo) then g
      else ⟨g.owner, g.count + 1, g.repos ++ [r]⟩
    else g
  else g

/-- One iteration of the filtering loop of filter_repos.py (lines 145-164):
skip non-EVM owners; initialize the owner's slot on first sight (dictionary
insertion order = append); then update that owner's slot. -/
def filterStep (gs : List OwnerGroup) (r : RepoEntry) : List OwnerGroup :=
  if isNonEvm r.owner then gs
  else
    let gs1 :=
      if gs.any (fun g => g.owner == r.owner) then gs else gs ++ [⟨r.owner, 0, []⟩]
    gs1.map (updateGroup r)

/-- The `filtered_repos` dictionary after the whole loop. -/
def filtered_repos (rs : List RepoEntry) : List OwnerGroup :=
  rs.foldl filterStep []

/-- Dictionary lookup `filtered_repos[owner]` (empty when absent). -/
def groupRepos (gs : List OwnerGroup) (o : String) : List RepoEntry :=
  match gs.find? (fun g => g.owner == o) with
  | some g => g.repos
  | none => []

/-- The `final_repos` list of filter_repos.py (lines 167-170): iterate the
owners in sorted order and concatenate each owner's filtered repository
list. -/
def final_repos (rs : List RepoEntry) : List RepoEntry :=
  let gs := filtered_repos rs
  (List.insertionSort (· ≤ ·) (gs.map (fun g => g.owner))).flatMap (groupRepos gs)

/-- The invariant maintained by the filtering loop: owners (dictionary keys)
are distinct; each slot's count equals its list's length and is at most 3;
each slot holds only repositories of its own owner, with distinct repository
names; and no slot belongs to a non-EVM owner. -/
def GroupsInv (gs : List OwnerGroup) : Prop :=
  (gs.map (fun g => g.owner)).Nodup ∧
  ∀ g ∈ gs,
    g.count = g.repos.length ∧
    g.repos.length ≤ 3 ∧
    (∀ x ∈ g.repos, x.owner = g.owner) ∧
    (g.repos.map (fun x => x.repo)).Nodup ∧
    isNonEvm g.owner = false

end FilterRepos

/-- One transient step of the simple extractor's retry loop: a transient
outcome either backs off `2 ^ attempt` and recurses, or (on the final
attempt) returns `None`. -/
theorem simple_step_transient (responses : Nat → HttpOutcome) (clock : Nat → Int)
    (mr n attempt : Nat) (hres : isTransient (responses attempt) = true) :
    SimpleGitHubExtractor.requestGo responses clock mr (n + 1) attempt =
      if attempt < mr - 1 then
        ⟨(SimpleGitHubExtractor.requestGo responses clock mr n (attempt + 1)).payload,
         (SimpleGitHubExtractor.requestGo responses clock mr n (attempt + 1)).attempts + 1,
         ((2 : Int) ^ attempt) ::
           (SimpleGitHubExtractor.requestGo responses clock mr n (attempt + 1)).sleeps⟩
      else ⟨none, 1, []⟩ := by
  rcases hresp : responses attempt with ⟨code, rh, body⟩ | _ | _ | _ | _ | _ <;>
    rw [hresp] at hres <;>
    simp only [SimpleGitHubExtractor.requestGo, hresp] <;>
    simp_all [isTransient]

/-- One transient step of the blockchain extractor's retry loop. -/
theorem blockchain_step_transient (responses : Nat → HttpOutcome) (clock : Nat → Int)
    (mr n attempt : Nat) (hres : isTransient (responses attempt) = true) :
    GitHubContributorExtractor.requestGo responses clock mr (n + 1) attempt =
      if attempt < mr - 1 then
        ⟨(GitHubContributorExtractor.requestGo responses clock mr n (attempt + 1)).payload,
         (GitHubContributorExtractor.requestGo responses clock mr n (attempt + 1)).attempts + 1,
         ((2 : Int) ^ attempt) ::
           (GitHubContributorExtractor.requestGo responses clock mr n (attempt + 1)).sleeps⟩
      else ⟨none, 1, []⟩ := by
  rcases hresp : responses attempt with ⟨code, rh, body⟩ | _ | _ | _ | _ | _ <;>
    rw [hresp] at hres <;>
    simp only [GitHubContributorExtractor.requestGo, hresp] <;>
    simp_all [isTransient]

/-- On an all-transient response sequence the simple extractor's loop runs
all remaining iterations, backing off `2 ^ a` for each non-final attempt. -/
theorem simple_requestGo_transient (responses : Nat → HttpOutcome) (clock : Nat → Int)
    (mr : Nat) (h : ∀ i, isTransient (responses i) = true) :
    ∀ fuel attempt, attempt + fuel = mr →
      SimpleGitHubExtractor.requestGo responses clock mr fuel attempt =
        ⟨none, fuel, (List.range' attempt (fuel - 1)).map (fun a => (2 : Int) ^ a)⟩ := by
  intro fuel
  induction fuel with
  | zero =>
    intro attempt _
    simp [SimpleGitHubExtractor.requestGo]
  | succ n ih =>
    intro attempt hat
    rw [simple_step_transient responses clock mr n attempt (h attempt)]
    rcases n with _ | m
    · have hnl : ¬ attempt < mr - 1 := by omega
      rw [if_neg hnl]
      simp
    · have hlt : attempt < mr - 1 := by omega
      rw [if_pos hlt, ih (attempt + 1) (by omega)]
      simp [List.range'_succ]

/-- On an all-transient response sequence the blockchain extractor's loop
behaves identically to the simple one. -/
theorem blockchain_requestGo_transient (responses : Nat → HttpOutcome) (clock : Nat → Int)
    (mr : Nat) (h : ∀ i, isTransient (responses i) = true) :
    ∀ fuel attempt, attempt + fuel = mr →
      GitHubContributorExtractor.requestGo responses clock mr fuel attempt =
        ⟨none, fuel, (List.range' attempt (fuel - 1)).map (fun a => (2 : Int) ^ a)⟩ := by
  intro fuel
  induction fuel with
  | zero =>
    intro attempt _
    simp [GitHubContributorExtractor.requestGo]
  | succ n ih =>
    intro attempt hat
    rw [blockchain_step_transient responses clock mr n attempt (h attempt)]
    rcases n with _ | m
    · have hnl : ¬ attempt < mr - 1 := by omega
      rw [if_neg hnl]
      simp
    · have hlt : attempt < mr - 1 := by omega
      rw [if_pos hlt, ih (attempt + 1) (by omega)]
      simp [List.range'_succ]

/-- C3: a request whose every send yields a transient fault (any
non-200/403/404 status, connection reset, TLS failure, timeout, or other
caught exception) makes exactly `max_retries` attempts in both extractors,
sleeping `2 ^ attempt` time units between consecutive attempts, and then
returns no payload instead of raising or retrying further. -/
theorem retry_bound_transient (responses : Nat → HttpOutcome) (clock : Nat → Int)
    (mr : Nat) (h : ∀ i, isTransient (responses i) = true) :
    SimpleGitHubExtractor.make_request responses clock mr =
      ⟨none, mr, (List.range (mr - 1)).map (fun attempt => (2 : Int) ^ attempt)⟩ ∧
    GitHubContributorExtractor.make_request responses clock mr =
      ⟨none, mr, (List.range (mr - 1)).map (fun attempt => (2 : Int) ^ attempt)⟩ := by
  constructor
  · rw [SimpleGitHubExtractor.make_request,
      simple_requestGo_transient responses clock mr h mr 0 (by omega),
      List.range_eq_range']
  · rw [GitHubContributorExtractor.make_request,
      blockchain_requestGo_transient responses clock mr h mr 0 (by omega),
      List.range_eq_range']

/-- Witness for C3: with connection errors on every send and the default
`max_retries = 3`, both extractors make 3 attempts, sleep 1 then 2 time
units, and return no payload. -/
theorem retry_bound_transient_witness :
    SimpleGitHubExtractor.make_request (fun _ => HttpOutcome.connError)
        (fun _ => 0) 3 = ⟨none, 3, [1, 2]⟩ ∧
    GitHubContributorExtractor.make_request (fun _ => HttpOutcome.connError)
        (fun _ => 0) 3 = ⟨none, 3, [1, 2]⟩ := by
  have h := retry_bound_transient (fun _ => HttpOutcome.connError) (fun _ => 0) 3
    (fun i => rfl)
  exact ⟨h.1.trans (by decide), h.2.trans (by decide)⟩

/-- On an all-403 response sequence the simple extractor's loop consumes
every remaining iteration, sleeping at least 60 seconds each time, and ends
with no payload: the 403 `continue` advances Python's
`for attempt in range(max_retries)` loop, so the retry is counted. -/
theorem simple_requestGo_rate_limited (responses : Nat → HttpOutcome)
    (clock : Nat → Int) (mr : Nat)
    (h : ∀ i, isRateLimited (responses i) = true) :
    ∀ fuel attempt,
      (SimpleGitHubExtractor.requestGo responses clock mr fuel attempt).payload = none ∧
      (SimpleGitHubExtractor.requestGo responses clock mr fuel attempt).attempts = fuel ∧
      (SimpleGitHubExtractor.requestGo responses clock mr fuel attempt).sleeps.length = fuel ∧
      ∀ w ∈ (SimpleGitHubExtractor.requestGo responses clock mr fuel attempt).sleeps,
        60 ≤ w := by
  intro fuel
  induction fuel with
  | zero =>
    intro attempt
    simp [SimpleGitHubExtractor.requestGo]
  | succ n ih =>
    intro attempt
    have ht := h attempt
    rcases hresp : responses attempt with ⟨code, rh, body⟩ | _ | _ | _ | _ | _ <;>
      rw [hresp] at ht <;> simp [isRateLimited] at ht
    subst ht
    simp only [SimpleGitHubExtractor.requestGo, hresp]
    obtain ⟨ih1, ih2, ih3, ih4⟩ := ih (attempt + 1)
    refine ⟨by simpa using ih1, by simpa using ih2, by simpa using ih3, ?_⟩
    intro w hw
    simp only [beq_self_eq_true, if_true, List.mem_cons] at hw
    rcases hw with hw | hw
    · subst hw
      exact le_max_left 60 _
    · exact ih4 w hw

/-- On an all-403 response sequence the blockchain extractor returns `None`
from the very first iteration, with no sleep and no retry. -/
theorem blockchain_requestGo_rate_limited (responses : Nat → HttpOutcome)
    (clock : Nat → Int) (mr : Nat)
    (h : ∀ i, isRateLimited (responses i) = true) :
    ∀ fuel attempt,
      GitHubContributorExtractor.requestGo responses clock mr fuel attempt =
        ⟨none, min fuel 1, []⟩ := by
  intro fuel
  induction fuel with
  | zero =>
    intro attempt
    simp [GitHubContributorExtractor.requestGo]
  | succ n _ =>
    intro attempt
    have ht := h attempt
    rcases hresp : responses attempt with ⟨code, rh, body⟩ | _ | _ | _ | _ | _ <;>
      rw [hresp] at ht <;> simp [isRateLimited] at ht
    subst ht
    simp [GitHubContributorExtractor.requestGo, hresp]

/-- C1 counterexample: with every send answering HTTP 403 (no reset header)
and the default `max_retries = 3`, the simple extractor does sleep 60 seconds
per 403, but each such retry consumes an attempt: after 3 attempts the
request fails with no payload, so a run of 403s alone exhausts the retry
budget, contrary to the claim.  The blockchain extractor never waits or
retries on 403 at all: it gives up after 1 attempt with no sleep. -/
theorem rate_limited_counterexample :
    SimpleGitHubExtractor.make_request
        (fun _ => HttpOutcome.status 403 none (Payload.plist [])) (fun _ => 0) 3 =
      ⟨none, 3, [60, 60, 60]⟩ ∧
    GitHubContributorExtractor.make_request
        (fun _ => HttpOutcome.status 403 none (Payload.plist [])) (fun _ => 0) 3 =
      ⟨none, 1, []⟩ := by
  constructor <;> decide

/-- C1 amended: when a request receives HTTP 403 on every send, the simple
extractor waits at least the 60-second floor (per the `X-RateLimit-Reset`
hint) before each next attempt, but that retry IS counted against the
`max_retries` attempt budget: `max_retries` consecutive 403s make exactly
`max_retries` attempts and then fail with no payload.  The blockchain
extractor instead fails immediately on 403: one attempt, no wait, no
retry. -/
theorem rate_limited_amended (responses : Nat → HttpOutcome) (clock : Nat → Int)
    (mr : Nat) (h : ∀ i, isRateLimited (responses i) = true) :
    (SimpleGitHubExtractor.make_request responses clock mr).payload = none ∧
    (SimpleGitHubExtractor.make_request responses clock mr).attempts = mr ∧
    (SimpleGitHubExtractor.make_request responses clock mr).sleeps.length = mr ∧
    (∀ w ∈ (SimpleGitHubExtractor.make_request responses clock mr).sleeps, 60 ≤ w) ∧
    GitHubContributorExtractor.make_request responses clock mr =
      ⟨none, min mr 1, []⟩ := by
  obtain ⟨h1, h2, h3, h4⟩ := simple_requestGo_rate_limited responses clock mr h mr 0
  exact ⟨h1, h2, h3, h4, blockchain_requestGo_rate_limited responses clock mr h mr 0⟩

/-- Witness for the amended C1, at the all-403 sequence with
`max_retries = 3`. -/
theorem rate_limited_amended_witness :
    (SimpleGitHubExtractor.make_request
        (fun _ => HttpOutcome.status 403 none (Payload.plist [])) (fun _ => 0) 3).payload
        = none ∧
    (SimpleGitHubExtractor.make_request
        (fun _ => HttpOutcome.status 403 none (Payload.plist [])) (fun _ => 0) 3).attempts
        = 3 ∧
    (SimpleGitHubExtractor.make_request
        (fun _ => HttpOutcome.status 403 none (Payload.plist [])) (fun _ => 0) 3).sleeps.length
        = 3 ∧
    (∀ w ∈ (SimpleGitHubExtractor.make_request
        (fun _ => HttpOutcome.status 403 none (Payload.plist [])) (fun _ => 0) 3).sleeps,
        60 ≤ w) ∧
    GitHubContributorExtractor.make_request
        (fun _ => HttpOutcome.status 403 none (Payload.plist [])) (fun _ => 0) 3 =
      ⟨none, 1, []⟩ := by
  have h := rate_limited_amended
    (fun _ => HttpOutcome.status 403 none (Payload.plist [])) (fun _ => 0) 3
    (fun i => rfl)
  exact ⟨h.1, h.2.1, h.2.2.1, h.2.2.2.1, h.2.2.2.2.trans (by decide)⟩

/-- C5: the Quota Tracker admit behaviour.  Budget-based
(`GitHubContributorExtractor.check_rate_limit`): when the tracked remaining
count is ≤ 1 the total sleep before the call is admitted is exactly
`max(0, reset − now)`, otherwise the call is admitted with no sleep.
Pacing-based (`SimpleGitHubExtractor.respect_rate_limit`): when less than the
2-second floor has elapsed since the previous request the tracker sleeps
exactly the remaining difference, otherwise not at all, and in all cases the
new request's start time is at least 2 seconds after the previous one. -/
theorem quota_tracker_gate :
    (∀ remaining reset now : Int, remaining ≤ 1 →
      (GitHubContributorExtractor.check_rate_limit_sleeps remaining reset now).foldr
          (· + ·) 0 = max 0 (reset - now)) ∧
    (∀ remaining reset now : Int, 1 < remaining →
      GitHubContributorExtractor.check_rate_limit_sleeps remaining reset now = []) ∧
    (∀ last current : ℚ, current - last < 2 →
      (SimpleGitHubExtractor.respect_rate_limit last current).1 = 2 - (current - last)) ∧
    (∀ last current : ℚ, 2 ≤ current - last →
      (SimpleGitHubExtractor.respect_rate_limit last current).1 = 0) ∧
    (∀ last current : ℚ,
      2 ≤ (SimpleGitHubExtractor.respect_rate_limit last current).2 - last) := by
  refine ⟨?_, ?_, ?_, ?_, ?_⟩
  · intro remaining reset now hrem
    simp only [GitHubContributorExtractor.check_rate_limit_sleeps, if_pos hrem]
    rcases le_or_lt (reset - now) 0 with hle | hlt
    · rw [if_neg (by simpa using hle)]
      simp [max_eq_left hle]
    · rw [if_pos (by simpa using hlt)]
      simp [max_eq_right hlt.le]
  · intro remaining reset now hrem
    simp [GitHubContributorExtractor.check_rate_limit_sleeps, not_le.mpr hrem]
  · intro last current hlt
    simp [SimpleGitHubExtractor.respect_rate_limit, SimpleGitHubExtractor.min_delay, hlt]
  · intro last current hle
    simp [SimpleGitHubExtractor.respect_rate_limit, SimpleGitHubExtractor.min_delay,
      not_lt.mpr hle]
  · intro last current
    by_cases hlt : current - last < 2
    · simp only [SimpleGitHubExtractor.respect_rate_limit,
        SimpleGitHubExtractor.min_delay, if_pos hlt]
      ring_nf
      linarith
    · simp only [SimpleGitHubExtractor.respect_rate_limit,
        SimpleGitHubExtractor.min_delay, if_neg hlt]
      linarith [not_lt.mp hlt]

/-- Witness for C5: remaining = 0, reset = 10, now = 3 sleeps 7 seconds
total; remaining = 5000 admits with no sleep; last = 0, current = 1 sleeps
exactly 1 second; last = 0, current = 5 sleeps nothing; and the new start
time is always ≥ 2 seconds after the previous one. -/
theorem quota_tracker_gate_witness :
    (GitHubContributorExtractor.check_rate_limit_sleeps 0 10 3).foldr (· + ·) 0 =
        max 0 (10 - 3) ∧
    GitHubContributorExtractor.check_rate_limit_sleeps 5000 10 3 = [] ∧
    (SimpleGitHubExtractor.respect_rate_limit 0 1).1 = 2 - (1 - 0) ∧
    (SimpleGitHubExtractor.respect_rate_limit 0 5).1 = 0 ∧
    2 ≤ (SimpleGitHubExtractor.respect_rate_limit 0 1).2 - 0 :=
  ⟨quota_tracker_gate.1 0 10 3 (by norm_num),
   quota_tracker_gate.2.1 5000 10 3 (by norm_num),
   quota_tracker_gate.2.2.1 0 1 (by norm_num),
   quota_tracker_gate.2.2.2.1 0 5 (by norm_num),
   quota_tracker_gate.2.2.2.2 0 1⟩

/-- C7: for every profile, if the free-text link field contains
`"linkedin.com"` then the professional-network (`linkedin`) field is set to
that text and the generic `website` field is left empty; otherwise `website`
is set to that text and `linkedin` is left empty; and in both cases the raw
link text is retained verbatim in the `blog` field. -/
theorem social_links_disambiguation (u : UserData) :
    (strContains "linkedin.com" (u.blog.getD "") = true →
      (GitHubContributorExtractor.extract_social_links (some u)).linkedin =
          u.blog.getD "" ∧
      (GitHubContributorExtractor.extract_social_links (some u)).website = "") ∧
    (strContains "linkedin.com" (u.blog.getD "") = false →
      (GitHubContributorExtractor.extract_social_links (some u)).website =
          u.blog.getD "" ∧
      (GitHubContributorExtractor.extract_social_links (some u)).linkedin = "") ∧
    (GitHubContributorExtractor.extract_social_links (some u)).blog =
      u.blog.getD "" := by
  refine ⟨fun h => ?_, fun h => ?_, rfl⟩
  · constructor <;>
      simp [GitHubContributorExtractor.extract_social_links, h]
  · constructor <;>
      simp [GitHubContributorExtractor.extract_social_links, h]

/-- Witness for C7, on the spec's two example profiles: a blog field of
`"https://www.linkedin.com/in/alice"` goes to `linkedin` with `website`
empty; `"https://alice.dev"` goes to `website` with `linkedin` empty. -/
theorem social_links_disambiguation_witness :
    ((GitHubContributorExtractor.extract_social_links
        (some ⟨"alice", none, none, none, none,
          some "https://www.linkedin.com/in/alice", none, none, none,
          0, 0, 0, none, none⟩)).linkedin = "https://www.linkedin.com/in/alice" ∧
     (GitHubContributorExtractor.extract_social_links
        (some ⟨"alice", none, none, none, none,
          some "https://www.linkedin.com/in/alice", none, none, none,
          0, 0, 0, none, none⟩)).website = "") ∧
    ((GitHubContributorExtractor.extract_social_links
        (some ⟨"alice", none, none, none, none,
          some "https://alice.dev", none, none, none,
          0, 0, 0, none, none⟩)).website = "https://alice.dev" ∧
     (GitHubContributorExtractor.extract_social_links
        (some ⟨"alice", none, none, none, none,
          some "https://alice.dev", none, none, none,
          0, 0, 0, none, none⟩)).linkedin = "") :=
  ⟨(social_links_disambiguation _).1 (by decide),
   (social_links_disambiguation _).2.1 (by decide)⟩

/-- C4: for every payload returned by the contributor endpoint, the simple
extractor's fetcher with limit `N` returns at most `N` stubs, every returned
stub has account kind `"User"`, and the returned stubs are a subsequence of
the input payload (order preserved); the blockchain extractor's fetcher does
the same with its fixed limit 10; and on the spec's scenario — two human
contributors with contribution counts [50, 10] plus one bot entry, limit 3 —
exactly the two human stubs are returned, in order, bot excluded. -/
theorem contributor_fetcher_spec :
    (∀ (data : Option Payload) (N : Nat),
      (SimpleGitHubExtractor.get_top_contributors data N).length ≤ N ∧
      (∀ c ∈ SimpleGitHubExtractor.get_top_contributors data N,
        c.typ = some "User") ∧
      (SimpleGitHubExtractor.get_top_contributors data N).Sublist
        (payloadEntries data)) ∧
    (∀ data : Option Payload,
      (GitHubContributorExtractor.get_repo_contributors data).length ≤ 10 ∧
      (∀ c ∈ GitHubContributorExtractor.get_repo_contributors data,
        c.typ = some "User") ∧
      (GitHubContributorExtractor.get_repo_contributors data).Sublist
        (payloadEntries data)) ∧
    SimpleGitHubExtractor.get_top_contributors
        (some (Payload.plist [⟨"alice", 50, some "User"⟩, ⟨"bot1", 5, some "Bot"⟩,
          ⟨"carol", 10, some "User"⟩])) 3 =
      [⟨"alice", 50, some "User"⟩, ⟨"carol", 10, some "User"⟩] := by
  refine ⟨?_, ?_, by decide⟩
  · intro data N
    rcases data with _ | p
    · simp [SimpleGitHubExtractor.get_top_contributors]
    · rcases p with entries | b
      · refine ⟨?_, ?_, ?_⟩
        · simp only [SimpleGitHubExtractor.get_top_contributors]
          split
          · simp
          · rw [List.length_take]
            exact min_le_left _ _
        · intro c hc
          simp only [SimpleGitHubExtractor.get_top_contributors] at hc
          split at hc
          · simp at hc
          · have h1 := List.mem_of_mem_take hc
            have h2 := List.of_mem_filter h1
            simpa using h2
        · simp only [SimpleGitHubExtractor.get_top_contributors, payloadEntries]
          split
          · simp
          · exact (List.take_sublist _ _).trans (List.filter_sublist _)
      · simp [SimpleGitHubExtractor.get_top_contributors, payloadEntries]
  · intro data
    rcases data with _ | p
    · simp [GitHubContributorExtractor.get_repo_contributors]
    · rcases p with entries | b
      · refine ⟨?_, ?_, ?_⟩
        · simp only [GitHubContributorExtractor.get_repo_contributors]
          split
          · simp
          · rw [List.length_take]
            exact min_le_left _ _
        · intro c hc
          simp only [GitHubContributorExtractor.get_repo_contributors] at hc
          split at hc
          · simp at hc
          · have h1 := List.mem_of_mem_take hc
            have h2 := List.of_mem_filter h1
            simpa using h2
        · simp only [GitHubContributorExtractor.get_repo_contributors, payloadEntries]
          split
          · simp
          · exact (List.take_sublist _ _).trans (List.filter_sublist _)
      · simp [GitHubContributorExtractor.get_repo_contributors, payloadEntries]

/-- Witness for C4 at the scenario payload: the fetch returns 2 ≤ 3 stubs,
the member `⟨"alice", 50, "User"⟩` has account kind `"User"`, and the result
is a subsequence of the payload. -/
theorem contributor_fetcher_spec_witness :
    (SimpleGitHubExtractor.get_top_contributors
        (some (Payload.plist [⟨"alice", 50, some "User"⟩, ⟨"bot1", 5, some "Bot"⟩,
          ⟨"carol", 10, some "User"⟩])) 3).length ≤ 3 ∧
    (⟨"alice", 50, some "User"⟩ : CEntry).typ = some "User" ∧
    (SimpleGitHubExtractor.get_top_contributors
        (some (Payload.plist [⟨"alice", 50, some "User"⟩, ⟨"bot1", 5, some "Bot"⟩,
          ⟨"carol", 10, some "User"⟩])) 3).Sublist
      (payloadEntries (some (Payload.plist [⟨"alice", 50, some "User"⟩,
        ⟨"bot1", 5, some "Bot"⟩, ⟨"carol", 10, some "User"⟩]))) :=
  ⟨(contributor_fetcher_spec.1 (some (Payload.plist [⟨"alice", 50, some "User"⟩,
      ⟨"bot1", 5, some "Bot"⟩, ⟨"carol", 10, some "User"⟩])) 3).1,
   (contributor_fetcher_spec.1 (some (Payload.plist [⟨"alice", 50, some "User"⟩,
      ⟨"bot1", 5, some "Bot"⟩, ⟨"carol", 10, some "User"⟩])) 3).2.1
      ⟨"alice", 50, some "User"⟩ (by decide),
   (contributor_fetcher_spec.1 (some (Payload.plist [⟨"alice", 50, some "User"⟩,
      ⟨"bot1", 5, some "Bot"⟩, ⟨"carol", 10, some "User"⟩])) 3).2.2⟩

/-- C9: a contributor fetch whose request yields no payload, an empty list,
or a non-list payload returns the empty list to its caller in both
extractors; and a non-list (unexpected-shape) 200 response does not trigger
any retry: the request completes after exactly one send and the fetcher
yields the empty list as an ordinary value. -/
theorem empty_contributors_handling :
    (∀ N : Nat, SimpleGitHubExtractor.get_top_contributors none N = []) ∧
    (∀ N : Nat, SimpleGitHubExtractor.get_top_contributors
      (some (Payload.plist [])) N = []) ∧
    (∀ (N : Nat) (b : Bool), SimpleGitHubExtractor.get_top_contributors
      (some (Payload.pobj b)) N = []) ∧
    GitHubContributorExtractor.get_repo_contributors none = [] ∧
    GitHubContributorExtractor.get_repo_contributors (some (Payload.plist [])) = [] ∧
    (∀ b : Bool, GitHubContributorExtractor.get_repo_contributors
      (some (Payload.pobj b)) = []) ∧
    (∀ (responses : Nat → HttpOutcome) (clock : Nat → Int) (mr N : Nat)
      (rh : Option Int) (b : Bool),
      responses 0 = HttpOutcome.status 200 rh (Payload.pobj b) →
        (SimpleGitHubExtractor.make_request responses clock (mr + 1)).attempts = 1 ∧
        SimpleGitHubExtractor.get_top_contributors
          (SimpleGitHubExtractor.make_request responses clock (mr + 1)).payload N = []) := by
  refine ⟨fun N => rfl, fun N => rfl, fun N b => rfl, rfl, rfl, fun b => rfl, ?_⟩
  intro responses clock mr N rh b h0
  simp [SimpleGitHubExtractor.make_request, SimpleGitHubExtractor.requestGo, h0,
    SimpleGitHubExtractor.get_top_contributors]

/-- Witness for C9: a 200 response carrying a JSON object where a list was
expected is answered by one single send and an empty contributor list. -/
theorem empty_contributors_handling_witness :
    (SimpleGitHubExtractor.make_request
        (fun _ => HttpOutcome.status 200 none (Payload.pobj true)) (fun _ => 0)
        3).attempts = 1 ∧
    SimpleGitHubExtractor.get_top_contributors
      (SimpleGitHubExtractor.make_request
        (fun _ => HttpOutcome.status 200 none (Payload.pobj true)) (fun _ => 0)
        3).payload 3 = [] :=
  empty_contributors_handling.2.2.2.2.2.2
    (fun _ => HttpOutcome.status 200 none (Payload.pobj true)) (fun _ => 0) 2 3
    none true rfl

/-- Invariants of the username-dedup loop: its output is pairwise distinct on
username, contains no username already seen, and every produced username
(and every previously seen one) is in the final seen-set. -/
theorem addNewContributors_spec (l : List ContributorRecord) :
    ∀ seen : List String,
      ((SimpleGitHubExtractor.addNewContributors seen l).2.Pairwise
        (fun a b => a.contributor_username ≠ b.contributor_username)) ∧
      (∀ r ∈ (SimpleGitHubExtractor.addNewContributors seen l).2,
        r.contributor_username ∉ seen) ∧
      (∀ s ∈ seen, s ∈ (SimpleGitHubExtractor.addNewContributors seen l).1) ∧
      (∀ r ∈ (SimpleGitHubExtractor.addNewContributors seen l).2,
        r.contributor_username ∈ (SimpleGitHubExtractor.addNewContributors seen l).1) := by
  induction l with
  | nil =>
    intro seen
    simp [SimpleGitHubExtractor.addNewContributors]
  | cons c rest ih =>
    intro seen
    by_cases hc : c.contributor_username ∈ seen
    · simp only [SimpleGitHubExtractor.addNewContributors, if_pos hc]
      exact ih seen
    · simp only [SimpleGitHubExtractor.addNewContributors, if_neg hc]
      obtain ⟨ih1, ih2, ih3, ih4⟩ := ih (c.contributor_username :: seen)
      refine ⟨List.Pairwise.cons ?_ ih1, ?_, ?_, ?_⟩
      · intro r hr heq
        exact ih2 r hr (by simp [← heq])
      · intro r hr
        rcases List.mem_cons.1 hr with rfl | hr
        · exact hc
        · exact fun hmem => ih2 r hr (List.mem_cons_of_mem _ hmem)
      · intro s hs
        exact ih3 s (List.mem_cons_of_mem _ hs)
      · intro r hr
        rcases List.mem_cons.1 hr with rfl | hr
        · exact ih3 _ (List.mem_cons_self _ _)
        · exact ih4 r hr

/-- Invariants of `run_extraction`: its output is pairwise distinct on
username and never repeats a username from the incoming seen-set. -/
theorem run_extraction_spec {α : Type} (extract : α → List ContributorRecord) :
    ∀ (catalog : List α) (seen : List String),
      ((SimpleGitHubExtractor.run_extraction extract catalog seen).Pairwise
        (fun a b => a.contributor_username ≠ b.contributor_username)) ∧
      (∀ r ∈ SimpleGitHubExtractor.run_extraction extract catalog seen,
        r.contributor_username ∉ seen) := by
  intro catalog
  induction catalog with
  | nil =>
    intro seen
    simp [SimpleGitHubExtractor.run_extraction]
  | cons e rest ih =>
    intro seen
    simp only [SimpleGitHubExtractor.run_extraction]
    obtain ⟨a1, a2, a3, a4⟩ := addNewContributors_spec (extract e) seen
    obtain ⟨r1, r2⟩ :=
      ih (SimpleGitHubExtractor.addNewContributors seen (extract e)).1
    constructor
    · rw [List.pairwise_append]
      refine ⟨a1, r1, ?_⟩
      intro x hx y hy heq
      exact r2 y hy (heq ▸ a4 x hx)
    · intro r hr
      rcases List.mem_append.1 hr with hr | hr
      · exact a2 r hr
      · exact fun hmem => r2 r hr (a3 _ hmem)

/-- Invariants of the `(username, project)` dedup pass: output pairwise
distinct on that key, no output key among those already seen. -/
theorem removeDuplicates_spec (l : List ContributorRecord) :
    ∀ seen : List (String × String),
      ((GitHubContributorExtractor.removeDuplicates seen l).Pairwise
        (fun a b => (a.contributor_username, a.project_name) ≠
          (b.contributor_username, b.project_name))) ∧
      (∀ r ∈ GitHubContributorExtractor.removeDuplicates seen l,
        (r.contributor_username, r.project_name) ∉ seen) := by
  induction l with
  | nil =>
    intro seen
    simp [GitHubContributorExtractor.removeDuplicates]
  | cons c rest ih =>
    intro seen
    by_cases hc : (c.contributor_username, c.project_name) ∈ seen
    · simp only [GitHubContributorExtractor.removeDuplicates, if_pos hc]
      exact ih seen
    · simp only [GitHubContributorExtractor.removeDuplicates, if_neg hc]
      obtain ⟨ih1, ih2⟩ := ih ((c.contributor_username, c.project_name) :: seen)
      refine ⟨List.Pairwise.cons ?_ ih1, ?_⟩
      · intro r hr heq
        exact ih2 r hr (by simp [← heq])
      · intro r hr
        rcases List.mem_cons.1 hr with rfl | hr
        · exact hc
        · exact fun hmem => ih2 r hr (List.mem_cons_of_mem _ hmem)

/-- C2: every run of either aggregation pipeline yields a ResultSet whose
records are pairwise distinct on the active dedup key (username alone in
`run_extraction`, `(username, project)` in `extract_all_contributors`); and
on the scenario of two catalog entries both yielding a contributor "bob",
the single-key pipeline keeps exactly the first-seen "bob" record while the
`(login, project)` dedup keeps both. -/
theorem dedup_invariant :
    (∀ (α : Type) (extract : α → List ContributorRecord) (catalog : List α),
      (SimpleGitHubExtractor.run_extraction extract catalog []).Pairwise
        (fun a b => a.contributor_username ≠ b.contributor_username)) ∧
    (∀ records : List ContributorRecord,
      (GitHubContributorExtractor.removeDuplicates [] records).Pairwise
        (fun a b => (a.contributor_username, a.project_name) ≠
          (b.contributor_username, b.project_name))) ∧
    SimpleGitHubExtractor.run_extraction
        (fun project => [mkBobRecord project]) ["alpha", "beta"] [] =
      [mkBobRecord "alpha"] ∧
    GitHubContributorExtractor.removeDuplicates []
        [mkBobRecord "alpha", mkBobRecord "beta"] =
      [mkBobRecord "alpha", mkBobRecord "beta"] := by
  refine ⟨?_, ?_, by decide, by decide⟩
  · intro α extract catalog
    exact (run_extraction_spec extract catalog []).1
  · intro records
    exact (removeDuplicates_spec records []).1

/-- The profile-join loop produces exactly one record per stub whose profile
was found (usernames in stub order) and counts one "not found" per stub
whose profile fetch failed. -/
theorem profileLoop_spec (get_user_details : String → Option UserData)
    (e : RepoEntry) :
    ∀ l : List CEntry,
      ((GitHubContributorExtractor.profileLoop get_user_details e l).1.map
          (fun r => r.contributor_username) =
        (l.filter (fun c => (get_user_details c.login).isSome)).map
          (fun c => c.login)) ∧
      (GitHubContributorExtractor.profileLoop get_user_details e l).2 =
        (l.filter (fun c => (get_user_details c.login).isNone)).length := by
  intro l
  induction l with
  | nil =>
    simp [GitHubContributorExtractor.profileLoop]
  | cons c rest ih =>
    cases hp : get_user_details c.login with
    | none =>
      simp [GitHubContributorExtractor.profileLoop, hp, ih.1, ih.2]
    | some u =>
      simp [GitHubContributorExtractor.profileLoop,
        GitHubContributorExtractor.build_contributor_info, hp, ih.1, ih.2]

/-- C8: for every contributor payload and every profile-endpoint behaviour,
`process_repository` produces records exactly for the contributors whose
profiles were found (in order) and counts one "profile not found" per
missing profile, without aborting; in the scenario of two contributors where
one profile fetch returns 404, exactly the other contributor's record
appears and the not-found count is 1. -/
theorem profile_not_found_skip :
    (∀ (contribData : Option Payload)
        (get_user_details : String → Option UserData) (e : RepoEntry),
      ((GitHubContributorExtractor.process_repository contribData
            get_user_details e).1.map (fun r => r.contributor_username) =
        ((GitHubContributorExtractor.get_repo_contributors contribData).filter
          (fun c => (get_user_details c.login).isSome)).map (fun c => c.login)) ∧
      (GitHubContributorExtractor.process_repository contribData
          get_user_details e).2 =
        ((GitHubContributorExtractor.get_repo_contributors contribData).filter
          (fun c => (get_user_details c.login).isNone)).length) ∧
    ((GitHubContributorExtractor.process_repository
        (some (Payload.plist [⟨"alice", 7, some "User"⟩, ⟨"bob", 3, some "User"⟩]))
        aliceOnlyProfile ⟨"acme", "widget", "Widget"⟩).1.map
        (fun r => r.contributor_username) = ["alice"]) ∧
    (GitHubContributorExtractor.process_repository
        (some (Payload.plist [⟨"alice", 7, some "User"⟩, ⟨"bob", 3, some "User"⟩]))
        aliceOnlyProfile ⟨"acme", "widget", "Widget"⟩).2 = 1 := by
  refine ⟨?_, by decide, by decide⟩
  intro contribData get_user_details e
  exact profileLoop_spec get_user_details e
    (GitHubContributorExtractor.get_repo_contributors contribData)

/-- The catalog loop distributes over catalog concatenation: records
concatenate and the success/failure counts add. -/
theorem extractLoop_append
    (process : RepoEntry → Except String (List ContributorRecord))
    (l1 l2 : List RepoEntry) :
    (GitHubContributorExtractor.extractLoop process (l1 ++ l2)).1 =
      (GitHubContributorExtractor.extractLoop process l1).1 ++
        (GitHubContributorExtractor.extractLoop process l2).1 ∧
    (GitHubContributorExtractor.extractLoop process (l1 ++ l2)).2.1 =
      (GitHubContributorExtractor.extractLoop process l1).2.1 +
        (GitHubContributorExtractor.extractLoop process l2).2.1 ∧
    (GitHubContributorExtractor.extractLoop process (l1 ++ l2)).2.2 =
      (GitHubContributorExtractor.extractLoop process l1).2.2 +
        (GitHubContributorExtractor.extractLoop process l2).2.2 := by
  induction l1 with
  | nil =>
    simp [GitHubContributorExtractor.extractLoop]
  | cons e rest ih =>
    obtain ⟨ih1, ih2, ih3⟩ := ih
    rcases hp : process e with err | recs
    · simp only [List.cons_append, GitHubContributorExtractor.extractLoop, hp,
        List.append_eq]
      exact ⟨ih1, ih2, by omega⟩
    · simp only [List.cons_append, GitHubContributorExtractor.extractLoop, hp,
        List.append_eq]
      refine ⟨?_, by omega, by omega⟩
      rw [ih1, List.append_assoc]

/-- Every catalog entry is counted exactly once, as a success or a
failure. -/
theorem extractLoop_counts
    (process : RepoEntry → Except String (List ContributorRecord)) :
    ∀ catalog : List RepoEntry,
      (GitHubContributorExtractor.extractLoop process catalog).2.1 +
        (GitHubContributorExtractor.extractLoop process catalog).2.2 =
        catalog.length := by
  intro catalog
  induction catalog with
  | nil =>
    simp [GitHubContributorExtractor.extractLoop]
  | cons e rest ih =>
    rcases hp : process e with err | recs <;>
      simp only [GitHubContributorExtractor.extractLoop, hp, List.length_cons] <;>
      omega

/-- Every organization entry of the two-stage pipeline is counted exactly
once, as a success or a failure, whatever the remote behaviour and the
incoming dedup state. -/
theorem run_blockchain_loop_counts {α β : Type}
    (topRepos : α → Except String (List β))
    (extract : β → Except String (List ContributorRecord)) :
    ∀ (catalog : List α) (seen : List String) (acc : List ContributorRecord),
      (SimpleGitHubExtractor.run_blockchain_loop topRepos extract catalog
          seen acc).2.1 +
        (SimpleGitHubExtractor.run_blockchain_loop topRepos extract catalog
          seen acc).2.2 = catalog.length := by
  intro catalog
  induction catalog with
  | nil =>
    intro seen acc
    simp [SimpleGitHubExtractor.run_blockchain_loop]
  | cons org rest ih =>
    intro seen acc
    rcases htop : topRepos org with err | repos
    · have h := ih seen acc
      simp only [SimpleGitHubExtractor.run_blockchain_loop, htop, List.length_cons]
      omega
    · rcases repos with _ | ⟨r, rs⟩
      · have h := ih seen acc
        simp only [SimpleGitHubExtractor.run_blockchain_loop, htop, List.length_cons]
        omega
      · have h := ih
          (SimpleGitHubExtractor.processOrgRepos extract seen acc (r :: rs)).1
          (SimpleGitHubExtractor.processOrgRepos extract seen acc (r :: rs)).2.1
        simp only [SimpleGitHubExtractor.run_blockchain_loop, htop, List.length_cons]
        split <;> simp only [] <;> omega

/-- C6: for every catalog and every behaviour of the remote service
(including raised exceptions), both pipelines complete and emit summary
counts in which every entry is recorded exactly once as a success or a
failure; an entry whose processing raises is recorded as a failure,
contributes no records, and does not disturb the processing of the entries
before or after it. -/
theorem pipeline_error_containment :
    (∀ (process : RepoEntry → Except String (List ContributorRecord))
        (catalog : List RepoEntry),
      (GitHubContributorExtractor.extract_all_contributors process
          catalog).successful_repos +
        (GitHubContributorExtractor.extract_all_contributors process
          catalog).failed_repos = catalog.length) ∧
    (∀ (process : RepoEntry → Except String (List ContributorRecord))
        (pre post : List RepoEntry) (e : RepoEntry) (err : String),
      process e = Except.error err →
        (GitHubContributorExtractor.extractLoop process (pre ++ e :: post)).1 =
          (GitHubContributorExtractor.extractLoop process pre).1 ++
            (GitHubContributorExtractor.extractLoop process post).1 ∧
        (GitHubContributorExtractor.extractLoop process (pre ++ e :: post)).2.2 =
          (GitHubContributorExtractor.extractLoop process pre).2.2 +
            (GitHubContributorExtractor.extractLoop process post).2.2 + 1 ∧
        (GitHubContributorExtractor.extractLoop process (pre ++ e :: post)).2.1 =
          (GitHubContributorExtractor.extractLoop process pre).2.1 +
            (GitHubContributorExtractor.extractLoop process post).2.1) ∧
    (∀ (α β : Type) (topRepos : α → Except String (List β))
        (extract : β → Except String (List ContributorRecord))
        (catalog : List α),
      (SimpleGitHubExtractor.run_blockchain_extraction_with_top_repos topRepos
          extract catalog).2.1 +
        (SimpleGitHubExtractor.run_blockchain_extraction_with_top_repos topRepos
          extract catalog).2.2 = catalog.length) := by
  refine ⟨?_, ?_, ?_⟩
  · intro process catalog
    simpa [GitHubContributorExtractor.extract_all_contributors] using
      extractLoop_counts process catalog
  · intro process pre post e err herr
    obtain ⟨a1, a2, a3⟩ := extractLoop_append process pre (e :: post)
    have b1 : (GitHubContributorExtractor.extractLoop process (e :: post)).1 =
        (GitHubContributorExtractor.extractLoop process post).1 := by
      simp [GitHubContributorExtractor.extractLoop, herr]
    have b2 : (GitHubContributorExtractor.extractLoop process (e :: post)).2.1 =
        (GitHubContributorExtractor.extractLoop process post).2.1 := by
      simp [GitHubContributorExtractor.extractLoop, herr]
    have b3 : (GitHubContributorExtractor.extractLoop process (e :: post)).2.2 =
        (GitHubContributorExtractor.extractLoop process post).2.2 + 1 := by
      simp [GitHubContributorExtractor.extractLoop, herr]
    exact ⟨by rw [a1, b1], by omega, by omega⟩
  · intro α β topRepos extract catalog
    exact run_blockchain_loop_counts topRepos extract catalog [] []

/-- Witness for C6: a three-entry catalog whose middle entry's processing
raises is recorded as one failure, the other two entries are still
processed, and the records of the failing entry are absent. -/
theorem pipeline_error_containment_witness :
    ((GitHubContributorExtractor.extractLoop
        (fun r => if r.owner == "bad" then Except.error "boom" else Except.ok [])
        ([⟨"a", "x", "A"⟩] ++ (⟨"bad", "y", "B"⟩ : RepoEntry) :: [⟨"c", "z", "C"⟩])).1 =
      (GitHubContributorExtractor.extractLoop
        (fun r => if r.owner == "bad" then Except.error "boom" else Except.ok [])
        [⟨"a", "x", "A"⟩]).1 ++
      (GitHubContributorExtractor.extractLoop
        (fun r => if r.owner == "bad" then Except.error "boom" else Except.ok [])
        [⟨"c", "z", "C"⟩]).1) ∧
    ((GitHubContributorExtractor.extractLoop
        (fun r => if r.owner == "bad" then Except.error "boom" else Except.ok [])
        ([⟨"a", "x", "A"⟩] ++ (⟨"bad", "y", "B"⟩ : RepoEntry) :: [⟨"c", "z", "C"⟩])).2.2 =
      (GitHubContributorExtractor.extractLoop
        (fun r => if r.owner == "bad" then Except.error "boom" else Except.ok [])
        [⟨"a", "x", "A"⟩]).2.2 +
      (GitHubContributorExtractor.extractLoop
        (fun r => if r.owner == "bad" then Except.error "boom" else Except.ok [])
        [⟨"c", "z", "C"⟩]).2.2 + 1) ∧
    ((GitHubContributorExtractor.extractLoop
        (fun r => if r.owner == "bad" then Except.error "boom" else Except.ok [])
        ([⟨"a", "x", "A"⟩] ++ (⟨"bad", "y", "B"⟩ : RepoEntry) :: [⟨"c", "z", "C"⟩])).2.1 =
      (GitHubContributorExtractor.extractLoop
        (fun r => if r.owner == "bad" then Except.error "boom" else Except.ok [])
        [⟨"a", "x", "A"⟩]).2.1 +
      (GitHubContributorExtractor.extractLoop
        (fun r => if r.owner == "bad" then Except.error "boom" else Except.ok [])
        [⟨"c", "z", "C"⟩]).2.1) :=
  pipeline_error_containment.2.1
    (fun r => if r.owner == "bad" then Except.error "boom" else Except.ok [])
    [⟨"a", "x", "A"⟩] [⟨"c", "z", "C"⟩] ⟨"bad", "y", "B"⟩ "boom" rfl

/-- The slot update never changes the slot's owner key. -/
theorem updateGroup_owner (r : RepoEntry) (g : FilterRepos.OwnerGroup) :
    (FilterRepos.updateGroup r g).owner = g.owner := by
  unfold FilterRepos.updateGroup
  split
  · split
    · split
      · rfl
      · rfl
    · rfl
  · rfl

/-- The slot update preserves the per-slot invariant. -/
theorem updateGroup_props (r : RepoEntry) (g : FilterRepos.OwnerGroup)
    (h : g.count = g.repos.length ∧ g.repos.length ≤ 3 ∧
      (∀ x ∈ g.repos, x.owner = g.owner) ∧
      (g.repos.map (fun x => x.repo)).Nodup ∧
      FilterRepos.isNonEvm g.owner = false) :
    (FilterRepos.updateGroup r g).count = (FilterRepos.updateGroup r g).repos.length ∧
    (FilterRepos.updateGroup r g).repos.length ≤ 3 ∧
    (∀ x ∈ (FilterRepos.updateGroup r g).repos,
      x.owner = (FilterRepos.updateGroup r g).owner) ∧
    ((FilterRepos.updateGroup r g).repos.map (fun x => x.repo)).Nodup ∧
    FilterRepos.isNonEvm (FilterRepos.updateGroup r g).owner = false := by
  obtain ⟨h1, h2, h3, h4, h5⟩ := h
  unfold FilterRepos.updateGroup
  split
  · rename_i hbeq
    have howner : g.owner = r.owner := by simpa using hbeq
    split
    · rename_i hlt
      split
      · exact ⟨h1, h2, h3, h4, h5⟩
      · rename_i hany
        have hnotin : r.repo ∉ g.repos.map (fun x => x.repo) := by
          intro hmem
          obtain ⟨x, hx, hxe⟩ := List.mem_map.1 hmem
          exact hany (List.any_eq_true.2 ⟨x, hx, by simp [hxe]⟩)
        refine ⟨by simp [h1], by simp; omega, ?_, ?_, h5⟩
        · intro x hx
          rcases List.mem_append.1 hx with hx | hx
          · exact h3 x hx
          · simp only [List.mem_singleton] at hx
            subst hx
            exact howner.symm
        · simpa [List.nodup_append] using ⟨h4, fun x hx hxe => hnotin (hxe ▸ List.mem_map_of_mem _ hx)⟩
    · exact ⟨h1, h2, h3, h4, h5⟩
  · exact ⟨h1, h2, h3, h4, h5⟩

/-- One filtering iteration preserves the whole-dictionary invariant. -/
theorem filterStep_inv (gs : List FilterRepos.OwnerGroup) (r : RepoEntry)
    (h : FilterRepos.GroupsInv gs) :
    FilterRepos.GroupsInv (FilterRepos.filterStep gs r) := by
  unfold FilterRepos.filterStep
  split
  · exact h
  · rename_i hne
    have hne' : FilterRepos.isNonEvm r.owner = false := by
      simpa using hne
    set gs1 : List FilterRepos.OwnerGroup :=
      if gs.any (fun g => g.owner == r.owner) then gs else gs ++ [⟨r.owner, 0, []⟩]
      with hgs1
    have hinv1 : FilterRepos.GroupsInv gs1 := by
      rw [hgs1]
      split
      · exact h
      · rename_i hmem
        constructor
        · have hnotin : r.owner ∉ gs.map (fun g => g.owner) := by
            intro hin
            obtain ⟨g, hg, hge⟩ := List.mem_map.1 hin
            exact hmem (List.any_eq_true.2 ⟨g, hg, by simp [hge]⟩)
          simpa [List.nodup_append] using
            ⟨h.1, fun g hg hge => hnotin (hge ▸ List.mem_map_of_mem _ hg)⟩
        · intro g hg
          rcases List.mem_append.1 hg with hg | hg
          · exact h.2 g hg
          · simp only [List.mem_singleton] at hg
            subst hg
            exact ⟨rfl, by simp, by simp, by simp, hne'⟩
    constructor
    · have : (gs1.map (FilterRepos.updateGroup r)).map (fun g => g.owner) =
          gs1.map (fun g => g.owner) := by
        rw [List.map_map]
        exact List.map_congr_left (fun g _ => updateGroup_owner r g)
      rw [this]
      exact hinv1.1
    · intro g hg
      obtain ⟨g0, hg0, rfl⟩ := List.mem_map.1 hg
      exact updateGroup_props r g0 (hinv1.2 g0 hg0)

/-- The filtering loop establishes the dictionary invariant from the empty
dictionary, for every input repository list. -/
theorem filtered_repos_inv (rs : List RepoEntry) :
    FilterRepos.GroupsInv (FilterRepos.filtered_repos rs) := by
  have key : ∀ (l : List RepoEntry) (gs : List FilterRepos.OwnerGroup),
      FilterRepos.GroupsInv gs →
        FilterRepos.GroupsInv (l.foldl FilterRepos.filterStep gs) := by
    intro l
    induction l with
    | nil =>
      intro gs h
      simpa using h
    | cons r rest ih =>
      intro gs h
      simpa [List.foldl_cons] using ih _ (filterStep_inv gs r h)
  exact key rs [] ⟨by simp, by simp⟩

/-- What the dictionary invariant gives about each owner's looked-up list:
at most 3 entries, all owned by that owner, distinct repository names, and
an EVM-compatible owner. -/
theorem groupRepos_props (gs : List FilterRepos.OwnerGroup)
    (h : FilterRepos.GroupsInv gs) (o : String) :
    (FilterRepos.groupRepos gs o).length ≤ 3 ∧
    (∀ x ∈ FilterRepos.groupRepos gs o, x.owner = o) ∧
    ((FilterRepos.groupRepos gs o).map (fun x => x.repo)).Nodup ∧
    (∀ x ∈ FilterRepos.groupRepos gs o, FilterRepos.isNonEvm x.owner = false) := by
  unfold FilterRepos.groupRepos
  cases hf : gs.find? (fun g => g.owner == o) with
  | none => simp
  | some g =>
    have hmem := List.mem_of_find?_eq_some hf
    have ho : g.owner = o := by simpa using List.find?_some hf
    obtain ⟨hc, hlen, hown, hnd, hne⟩ := h.2 g hmem
    refine ⟨hlen, fun x hx => (hown x hx).trans ho, hnd, fun x hx => ?_⟩
    rw [hown x hx]
    exact hne

/-- A list of equal strings is sorted. -/
theorem sorted_of_all_eq (l : List String) (o : String) (h : ∀ y ∈ l, y = o) :
    l.Sorted (· ≤ ·) := by
  induction l with
  | nil => simp
  | cons a t ih =>
    rw [List.sorted_cons]
    refine ⟨?_, ih (fun y hy => h y (List.mem_cons_of_mem _ hy))⟩
    intro b hb
    rw [h a (List.mem_cons_self _ _), h b (List.mem_cons_of_mem _ hb)]

/-- Concatenating the owner groups along a sorted owner list yields a list
whose owner column is sorted. -/
theorem flatMap_owner_sorted (gs : List FilterRepos.OwnerGroup)
    (h : FilterRepos.GroupsInv gs) :
    ∀ os : List String, os.Sorted (· ≤ ·) →
      ((os.flatMap (FilterRepos.groupRepos gs)).map (fun x => x.owner)).Sorted
        (· ≤ ·) := by
  intro os
  induction os with
  | nil =>
    intro _
    simp [List.Sorted]
  | cons o rest ih =>
    intro hs
    rw [List.sorted_cons] at hs
    simp only [List.flatMap_cons, List.map_append]
    refine List.pairwise_append.2 ⟨?_, ih hs.2, ?_⟩
    · refine sorted_of_all_eq _ o ?_
      intro y hy
      obtain ⟨x, hx, rfl⟩ := List.mem_map.1 hy
      exact (groupRepos_props gs h o).2.1 x hx
    · intro x hx y hy
      obtain ⟨x', hx', rfl⟩ := List.mem_map.1 hx
      obtain ⟨y', hy', rfl⟩ := List.mem_map.1 hy
      obtain ⟨o', ho', hyo'⟩ := List.mem_flatMap.1 hy'
      rw [(groupRepos_props gs h o).2.1 x' hx',
        (groupRepos_props gs h o').2.1 y' hyo']
      exact hs.1 o' ho'

/-- Concatenating the owner groups along a duplicate-free owner list yields
pairwise-distinct (owner, repo) pairs. -/
theorem flatMap_pairwise_key (gs : List FilterRepos.OwnerGroup)
    (h : FilterRepos.GroupsInv gs) :
    ∀ os : List String, os.Nodup →
      (os.flatMap (FilterRepos.groupRepos gs)).Pairwise
        (fun a b => a.owner ≠ b.owner ∨ a.repo ≠ b.repo) := by
  intro os
  induction os with
  | nil =>
    intro _
    simp
  | cons o rest ih =>
    intro hnd
    rw [List.nodup_cons] at hnd
    simp only [List.flatMap_cons]
    refine List.pairwise_append.2 ⟨?_, ih hnd.2, ?_⟩
    · have hrepo : (FilterRepos.groupRepos gs o).Pairwise
          (fun a b => a.repo ≠ b.repo) :=
        List.pairwise_map.1 (groupRepos_props gs h o).2.2.1
      exact hrepo.imp (fun hab => Or.inr hab)
    · intro x hx y hy
      obtain ⟨o', ho', hyo'⟩ := List.mem_flatMap.1 hy
      refine Or.inl ?_
      rw [(groupRepos_props gs h o).2.1 x hx,
        (groupRepos_props gs h o').2.1 y hyo']
      exact fun he => hnd.1 (he ▸ ho')

/-- Along a duplicate-free owner list, the concatenation holds at most 3
repositories of any given owner. -/
theorem flatMap_count_owner (gs : List FilterRepos.OwnerGroup)
    (h : FilterRepos.GroupsInv gs) (o : String) :
    ∀ os : List String, os.Nodup →
      ((os.flatMap (FilterRepos.groupRepos gs)).filter
        (fun r => r.owner == o)).length ≤ 3 := by
  intro os
  induction os with
  | nil =>
    intro _
    simp
  | cons o' rest ih =>
    intro hnd
    rw [List.nodup_cons] at hnd
    simp only [List.flatMap_cons, List.filter_append, List.length_append]
    by_cases heq : o' = o
    · subst heq
      have hrest : ((rest.flatMap (FilterRepos.groupRepos gs)).filter
          (fun r => r.owner == o')).length = 0 := by
        rw [List.length_eq_zero, List.filter_eq_nil_iff]
        intro a ha
        obtain ⟨o2, ho2, hao2⟩ := List.mem_flatMap.1 ha
        rw [(groupRepos_props gs h o2).2.1 a hao2]
        simp only [beq_iff_eq]
        exact fun he => hnd.1 (he ▸ ho2)
      have hgrp : ((FilterRepos.groupRepos gs o').filter
          (fun r => r.owner == o')).length ≤ 3 :=
        le_trans (List.length_filter_le _ _) (groupRepos_props gs h o').1
      omega
    · have hgrp : ((FilterRepos.groupRepos gs o').filter
          (fun r => r.owner == o)).length = 0 := by
        rw [List.length_eq_zero, List.filter_eq_nil_iff]
        intro a ha
        rw [(groupRepos_props gs h o').2.1 a ha]
        simp only [beq_iff_eq]
        exact heq
      have := ih hnd.2
      omega

/-- C10: for every input repository list, `final_repos` contains at most 3
repositories per owner, no two entries with the same (owner, repo) pair, no
entry whose lowercased owner name has a configured non-EVM chain name as a
substring, and its entries are grouped by owner in ascending sorted owner
order (its owner column is sorted, so equal owners are consecutive). -/
theorem final_repos_invariant (rs : List RepoEntry) :
    (∀ o : String,
      ((FilterRepos.final_repos rs).filter (fun r => r.owner == o)).length ≤ 3) ∧
    ((FilterRepos.final_repos rs).Pairwise
      (fun a b => a.owner ≠ b.owner ∨ a.repo ≠ b.repo)) ∧
    (∀ r ∈ FilterRepos.final_repos rs, FilterRepos.isNonEvm r.owner = false) ∧
    (((FilterRepos.final_repos rs).map (fun r => r.owner)).Sorted (· ≤ ·)) := by
  have hinv := filtered_repos_inv rs
  have hnodup : (List.insertionSort (· ≤ ·)
      ((FilterRepos.filtered_repos rs).map (fun g => g.owner))).Nodup :=
    (List.perm_insertionSort (· ≤ ·) _).nodup_iff.mpr hinv.1
  have hsorted : (List.insertionSort (· ≤ ·)
      ((FilterRepos.filtered_repos rs).map (fun g => g.owner))).Sorted (· ≤ ·) :=
    List.sorted_insertionSort (· ≤ ·) _
  refine ⟨?_, ?_, ?_, ?_⟩
  · intro o
    simpa [FilterRepos.final_repos] using
      flatMap_count_owner _ hinv o _ hnodup
  · simpa [FilterRepos.final_repos] using
      flatMap_pairwise_key _ hinv _ hnodup
  · intro r hr
    simp only [FilterRepos.final_repos] at hr
    obtain ⟨o, _, hro⟩ := List.mem_flatMap.1 hr
    exact (groupRepos_props _ hinv o).2.2.2 r hro
  · simpa [FilterRepos.final_repos] using
      flatMap_owner_sorted _ hinv _ hsorted

/-- Witness for C10 at a concrete single-owner catalog: the entry
`⟨"aave", "aave-v3-core", "Aave V3"⟩` survives the filter and its owner is
EVM-compatible. -/
theorem final_repos_invariant_witness :
    FilterRepos.isNonEvm
      (⟨"aave", "aave-v3-core", "Aave V3"⟩ : RepoEntry).owner = false ∧
    ((FilterRepos.final_repos [⟨"aave", "aave-v3-core", "Aave V3"⟩,
        ⟨"aave", "aave-protocol", "Aave Protocol"⟩]).filter
      (fun r => r.owner == "aave")).length ≤ 3 :=
  ⟨(final_repos_invariant [⟨"aave", "aave-v3-core", "Aave V3"⟩,
      ⟨"aave", "aave-protocol", "Aave Protocol"⟩]).2.2.1
      ⟨"aave", "aave-v3-core", "Aave V3"⟩ (by decide),
   (final_repos_invariant [⟨"aave", "aave-v3-core", "Aave V3"⟩,
      ⟨"aave", "aave-protocol", "Aave Protocol"⟩]).1 "aave"⟩

